import Mathlib

/-!
Shallow embedding of the AMM program (`src/6-amm/programs/amm`), covering the
Initialize, Deposit, Swap and Withdraw instruction handlers and the numeric
core they call.  Machine integers are modelled as `Nat` with explicit
`% 2^64` / `% 2^128` reductions at the points where the Rust code narrows or
where its `u128` operations could wrap.  Fallible handlers return
`Except AmmError AmmState`; an `Except.error` result models the transaction
aborting with no state mutation.
-/

deriving instance DecidableEq for Except

namespace Amm

/-- Error kinds of the program.  Modelled from the spec: `error.rs` is not
among the sources; the variants are those named in spec section 7 and used at
the `require!` sites of the handlers.  `abort` stands for any transaction
abort that is not one of the named program errors: an arithmetic panic
(`unwrap` on a checked operation) or a failure inside a Reserve Ledger
(token-program) call. -/
inductive AmmError where
  | poolLocked
  | invalidAmount
  | slippageExceeded
  | insufficientFunds
  | insufficientLiquidity
  | noLiquidityInPool
  | abort
  deriving Repr, DecidableEq

/-- Observable state of one pool together with the interacting user's token
balances.  `rx` / `ry` are the vault balances (`vault_x.amount`,
`vault_y.amount`), `supply` is `mint_lp.supply`, `userX` / `userY` /
`userLp` are the caller's token-account balances, `locked` and `fee` are the
`Config` fields the handlers read (`state.rs` is not among the sources; the
fields are those written by `Initialize::init` and read by the handlers). -/
structure AmmState where
  rx : Nat
  ry : Nat
  supply : Nat
  userX : Nat
  userY : Nat
  userLp : Nat
  locked : Bool
  fee : Nat
  deriving Repr, DecidableEq

/-- Reserve Ledger transfer: spl-token `transfer` checked-subtracts the
amount from the source balance (failing on insufficient balance) and
checked-adds it to the destination balance (failing on `u64` overflow).
Returns the new `(source, destination)` balances. -/
def splTransfer (src dst amount : Nat) : Option (Nat × Nat) :=
  if amount ≤ src ∧ dst + amount < 2 ^ 64 then some (src - amount, dst + amount) else none

/-- Reserve Ledger mint: spl-token `mint_to` checked-adds the amount to the
mint supply and to the destination balance, failing on `u64` overflow.
Returns the new `(supply, destination)` balances. -/
def splMintTo (supply dst amount : Nat) : Option (Nat × Nat) :=
  if supply + amount < 2 ^ 64 ∧ dst + amount < 2 ^ 64 then some (supply + amount, dst + amount)
  else none

/-- Reserve Ledger burn: spl-token `burn` checked-subtracts the amount from
the source balance and from the mint supply, failing if either would go
negative.  Returns the new `(supply, source)` balances. -/
def splBurn (supply src amount : Nat) : Option (Nat × Nat) :=
  if amount ≤ supply ∧ amount ≤ src then some (supply - amount, src - amount) else none

/-- Rust `u128::checked_mul`: `none` on overflow past `2^128`. -/
def u128CheckedMul (a b : Nat) : Option Nat :=
  if a * b < 2 ^ 128 then some (a * b) else none

/-- Rust `u128::checked_div`: `none` exactly when the divisor is zero. -/
def u128CheckedDiv (a b : Nat) : Option Nat :=
  if b = 0 then none else some (a / b)

/-- Swap output computation, translated from `swap.rs` lines 95-101:
`amount_in_with_fee = (amount_in as u128 * (10_000 - fee)) / 10_000`,
`amount_out = ((amount_in_with_fee * reserve_out) / (reserve_in + amount_in_with_fee)) as u64`.
The `u128` subtraction, multiplications and addition wrap modulo `2^128`
(release-profile semantics) and the final `as u64` truncates modulo `2^64`.
A zero divisor makes the Rust program panic where Lean division yields `0`;
under the spec's `fee < 10_000` invariant and 64-bit reserves the divisor is
positive, so the divergence is outside every state the theorems below
consider. -/
def swapAmountOut (amountIn fee reserveIn reserveOut : Nat) : Nat :=
  let amountInWithFee := amountIn * ((10000 + (2 ^ 128 - fee)) % 2 ^ 128) % 2 ^ 128 / 10000
  let numerator := amountInWithFee * reserveOut % 2 ^ 128
  let denominator := (reserveIn + amountInWithFee) % 2 ^ 128
  numerator / denominator % 2 ^ 64

/-- The 128-bit quotient of the swap computation before the `as u64`
narrowing on `swap.rs` line 101: same computation as `swapAmountOut` but
stopping at the `u128` value `numerator / denominator`.  Comparing it with
`swapAmountOut` states whether the narrowing truncates. -/
def swapAmountOutWide (amountIn fee reserveIn reserveOut : Nat) : Nat :=
  let amountInWithFee := amountIn * ((10000 + (2 ^ 128 - fee)) % 2 ^ 128) % 2 ^ 128 / 10000
  let numerator := amountInWithFee * reserveOut % 2 ^ 128
  let denominator := (reserveIn + amountInWithFee) % 2 ^ 128
  numerator / denominator

/-- Swap output as the spec states it, written from the spec's words for the
refinement claim: `amount_in_eff = floor(amount_in * (10_000 - fee_bps) / 10_000)`
then `amount_out = floor(amount_in_eff * R_out / (R_in + amount_in_eff))`,
over unbounded naturals. -/
def swapOutSpec (amountIn fee reserveIn reserveOut : Nat) : Nat :=
  let eff := amountIn * (10000 - fee) / 10000
  eff * reserveOut / (reserveIn + eff)

/-- Swap handler, translated from `Swap::swap` (`swap.rs` lines 76-141):
lock check, zero-input check, source/destination selection by direction,
caller-funds check, nonempty-reserves check, output computation, slippage
check, zero-output check, destination-reserve check, then the two Reserve
Ledger transfers.  Either transfer failing aborts the whole transition. -/
def swap (s : AmmState) (amountIn minAmountOut : Nat) (xToY : Bool) :
    Except AmmError AmmState :=
  if s.locked then .error .poolLocked
  else if amountIn = 0 then .error .invalidAmount
  else
    let userSrc := if xToY then s.userX else s.userY
    let userDst := if xToY then s.userY else s.userX
    let vaultSrc := if xToY then s.rx else s.ry
    let vaultDst := if xToY then s.ry else s.rx
    if userSrc < amountIn then .error .insufficientFunds
    else if vaultSrc = 0 ∨ vaultDst = 0 then .error .insufficientLiquidity
    else
      let amountOut := swapAmountOut amountIn s.fee vaultSrc vaultDst
      if amountOut < minAmountOut then .error .slippageExceeded
      else if amountOut = 0 then .error .invalidAmount
      else if vaultDst < amountOut then .error .insufficientLiquidity
      else
        match splTransfer userSrc vaultSrc amountIn,
              splTransfer vaultDst userDst amountOut with
        | some (us, vs), some (vd, ud) =>
            .ok (if xToY then
                  { s with userX := us, rx := vs, ry := vd, userY := ud }
                 else
                  { s with userY := us, ry := vs, rx := vd, userX := ud })
        | _, _ => .error .abort

/-- Steady-state deposit split.  Modelled from the spec: the handler calls
`ConstantProduct::xy_deposit_amounts_from_l` from the external
`constant_product_curve` crate, whose source is not in the repository.  Per
spec section 4.2 the amounts are `x = floor(R_x * lp_amount / supply)` and
`y = floor(R_y * lp_amount / supply)`, computed in widened 128-bit
arithmetic and narrowed back to `u64`; any computation failure (in
particular a zero `supply`) is mapped to `InvalidAmount` by the handler. -/
def depositAmounts (rx ry supply lpAmount : Nat) : Except AmmError (Nat × Nat) :=
  if supply = 0 then .error .invalidAmount
  else .ok (rx * lpAmount % 2 ^ 128 / supply % 2 ^ 64,
            ry * lpAmount % 2 ^ 128 / supply % 2 ^ 64)

/-- Deposit handler, translated from `Deposit::deposit` (`deposit.rs` lines
137-171): lock check, zero-amount check, bootstrap branch when the LP supply
and both vaults are zero (taking `(max_x, max_y)` verbatim) or the
proportional split otherwise, slippage check, the two transfers into the
vaults, then the LP mint. -/
def deposit (s : AmmState) (amount maxX maxY : Nat) : Except AmmError AmmState :=
  if s.locked then .error .poolLocked
  else if amount = 0 then .error .invalidAmount
  else
    let split : Except AmmError (Nat × Nat) :=
      if s.supply = 0 ∧ s.rx = 0 ∧ s.ry = 0 then .ok (maxX, maxY)
      else depositAmounts s.rx s.ry s.supply amount
    match split with
    | .error e => .error e
    | .ok (x, y) =>
      if ¬ (x ≤ maxX ∧ y ≤ maxY) then .error .slippageExceeded
      else
        match splTransfer s.userX s.rx x with
        | none => .error .abort
        | some (ux, rx') =>
          match splTransfer s.userY s.ry y with
          | none => .error .abort
          | some (uy, ry') =>
            match splMintTo s.supply s.userLp amount with
            | none => .error .abort
            | some (supply', ulp) =>
                .ok { s with userX := ux, rx := rx', userY := uy, ry := ry',
                             supply := supply', userLp := ulp }

/-- Per-vault withdraw amount, translated from `withdraw.rs` lines 100-110:
`(vault as u128).checked_mul(lp_amount).unwrap().checked_div(total_lp).unwrap() as u64`.
`none` models the `unwrap` panicking (aborting the transaction). -/
def withdrawSplit (vault supply lpAmount : Nat) : Option Nat :=
  (u128CheckedMul vault lpAmount).bind fun p =>
    (u128CheckedDiv p supply).map fun q => q % 2 ^ 64

/-- Withdraw handler, translated from `Withdraw::withdraw` (`withdraw.rs`
lines 92-149): lock check, zero-amount check, caller LP-balance check,
zero-supply check, proportional split, slippage check, zero-output check,
vault-balance checks, then the LP burn and the two transfers out of the
vaults. -/
def withdraw (s : AmmState) (lpAmount minX minY : Nat) : Except AmmError AmmState :=
  if s.locked then .error .poolLocked
  else if lpAmount = 0 then .error .invalidAmount
  else if s.userLp < lpAmount then .error .insufficientFunds
  else if s.supply = 0 then .error .noLiquidityInPool
  else
    match withdrawSplit s.rx s.supply lpAmount, withdrawSplit s.ry s.supply lpAmount with
    | some xOut, some yOut =>
      if ¬ (minX ≤ xOut ∧ minY ≤ yOut) then .error .slippageExceeded
      else if ¬ (0 < xOut ∧ 0 < yOut) then .error .invalidAmount
      else if s.rx < xOut then .error .insufficientLiquidity
      else if s.ry < yOut then .error .insufficientLiquidity
      else
        match splBurn s.supply s.userLp lpAmount with
        | none => .error .abort
        | some (supply', ulp) =>
          match splTransfer s.rx s.userX xOut with
          | none => .error .abort
          | some (rx', ux) =>
            match splTransfer s.ry s.userY yOut with
            | none => .error .abort
            | some (ry', uy) =>
                .ok { s with rx := rx', userX := ux, ry := ry', userY := uy,
                             supply := supply', userLp := ulp }
    | _, _ => .error .abort

/-- Initialize handler, translated from `Initialize::init` (`initialize.rs`
lines 72-85) together with the account constraints of `Initialize`: the
`Config` is written with the supplied `fee` and `locked = false`, and the
freshly created vaults and LP mint start at zero.  `ux` / `uy` are the
caller's pre-existing token balances, untouched by initialization.  The
handler performs no check on `fee` beyond it fitting `u16`. -/
def initPool (fee ux uy : Nat) : AmmState :=
  { rx := 0, ry := 0, supply := 0, userX := ux, userY := uy, userLp := 0,
    locked := false, fee := fee }

/-- Well-formed states: every balance and the supply fit `u64`, the caller's
LP balance never exceeds the LP supply (a token balance cannot exceed its
mint's supply), and the fee respects spec invariant 1 (`fee_bps < 10_000`). -/
def WF (s : AmmState) : Prop :=
  s.rx < 2 ^ 64 ∧ s.ry < 2 ^ 64 ∧ s.supply < 2 ^ 64 ∧ s.userX < 2 ^ 64 ∧
  s.userY < 2 ^ 64 ∧ s.userLp < 2 ^ 64 ∧ s.userLp ≤ s.supply ∧ s.fee < 10000

instance (s : AmmState) : Decidable (WF s) := by
  unfold WF
  infer_instance

/-- Spec invariant 2: `supply == 0 ⇔ R_x == 0 ∧ R_y == 0`. -/
def poolIntact (s : AmmState) : Prop :=
  s.supply = 0 ↔ (s.rx = 0 ∧ s.ry = 0)

instance (s : AmmState) : Decidable (poolIntact s) := by
  unfold poolIntact
  infer_instance

/-- The state a transition leaves behind: the new state on success, the old
state untouched on any error (the enclosing transaction rolls back). -/
def applyResult (s : AmmState) : Except AmmError AmmState → AmmState
  | .ok t => t
  | .error _ => s

/-- One mutating instruction together with its arguments. -/
inductive AmmOp where
  | deposit (amount maxX maxY : Nat)
  | swap (amountIn minAmountOut : Nat) (xToY : Bool)
  | withdraw (lpAmount minX minY : Nat)
  deriving Repr, DecidableEq

/-- Dispatch one instruction to its handler. -/
def runOp (s : AmmState) : AmmOp → Except AmmError AmmState
  | .deposit amount maxX maxY => deposit s amount maxX maxY
  | .swap amountIn minAmountOut xToY => swap s amountIn minAmountOut xToY
  | .withdraw lpAmount minX minY => withdraw s lpAmount minX minY

/-- Run a sequence of swaps, requiring every one of them to succeed. -/
def applySwaps (s : AmmState) : List (Nat × Nat × Bool) → Except AmmError AmmState
  | [] => .ok s
  | (a, m, d) :: rest =>
    match swap s a m d with
    | .error e => .error e
    | .ok t => applySwaps t rest

end Amm

/-! ## Helper lemmas: ledger-call inversions and swap arithmetic -/

namespace Amm

theorem splTransfer_eq_some {src dst amount : Nat} {p : Nat × Nat}
    (h : splTransfer src dst amount = some p) :
    amount ≤ src ∧ dst + amount < 2 ^ 64 ∧ p = (src - amount, dst + amount) := by
  unfold splTransfer at h
  split at h
  · rename_i hc
    exact ⟨hc.1, hc.2, by injection h with h2; exact h2.symm⟩
  · exact absurd h (by simp)

theorem splMintTo_eq_some {supply dst amount : Nat} {p : Nat × Nat}
    (h : splMintTo supply dst amount = some p) :
    supply + amount < 2 ^ 64 ∧ dst + amount < 2 ^ 64 ∧
    p = (supply + amount, dst + amount) := by
  unfold splMintTo at h
  split at h
  · rename_i hc
    exact ⟨hc.1, hc.2, by injection h with h2; exact h2.symm⟩
  · exact absurd h (by simp)

theorem splBurn_eq_some {supply src amount : Nat} {p : Nat × Nat}
    (h : splBurn supply src amount = some p) :
    amount ≤ supply ∧ amount ≤ src ∧ p = (supply - amount, src - amount) := by
  unfold splBurn at h
  split at h
  · rename_i hc
    exact ⟨hc.1, hc.2, by injection h with h2; exact h2.symm⟩
  · exact absurd h (by simp)

theorem withdrawSplit_eq_some {vault supply lp out : Nat}
    (h : withdrawSplit vault supply lp = some out) :
    vault * lp < 2 ^ 128 ∧ supply ≠ 0 ∧ out = vault * lp / supply % 2 ^ 64 := by
  unfold withdrawSplit u128CheckedMul u128CheckedDiv at h
  split at h
  next hmul =>
    dsimp only [Option.bind] at h
    split at h
    next hsup => exact absurd h (by simp)
    next hsup =>
      simp only [Option.map] at h
      injection h with h2
      exact ⟨hmul, hsup, h2.symm⟩
  next hmul => exact absurd h (by simp)

theorem effAmount_le (a fee : Nat) : a * (10000 - fee) / 10000 ≤ a := by
  calc a * (10000 - fee) / 10000 ≤ a * 10000 / 10000 :=
        Nat.div_le_div_right (Nat.mul_le_mul_left a (by omega))
    _ = a := Nat.mul_div_cancel a (by norm_num)

theorem effAmount_lt (a fee : Nat) (ha : 0 < a) (hf : 0 < fee) :
    a * (10000 - fee) / 10000 < a := by
  rw [Nat.div_lt_iff_lt_mul (by norm_num : (0 : Nat) < 10000)]
  exact mul_lt_mul_of_pos_left (by omega : 10000 - fee < 10000) ha

theorem swapOutSpec_le (a fee rin rout : Nat) : swapOutSpec a fee rin rout ≤ rout := by
  unfold swapOutSpec
  set e := a * (10000 - fee) / 10000
  rcases Nat.eq_zero_or_pos e with h0 | hpos
  · simp [h0]
  · calc e * rout / (rin + e) ≤ e * rout / e :=
          Nat.div_le_div_left (Nat.le_add_left e rin) hpos
      _ = rout := Nat.mul_div_cancel_left rout hpos

theorem swapOutSpec_lt (a fee rin rout : Nat) (hrin : 0 < rin) (hrout : 0 < rout) :
    swapOutSpec a fee rin rout < rout := by
  unfold swapOutSpec
  set e := a * (10000 - fee) / 10000
  have hd : 0 < rin + e := by omega
  rw [Nat.div_lt_iff_lt_mul hd]
  calc e * rout = rout * e := Nat.mul_comm e rout
    _ < rout * e + rout * rin := Nat.lt_add_of_pos_right (Nat.mul_pos hrout hrin)
    _ = rout * (rin + e) := by ring

theorem swapAmountOut_eq_wide_mod (a fee rin rout : Nat) :
    swapAmountOut a fee rin rout = swapAmountOutWide a fee rin rout % 2 ^ 64 := rfl

theorem swapAmountOutWide_eq_spec (a fee rin rout : Nat) (hfee : fee ≤ 10000)
    (ha : a < 2 ^ 64) (hrin : rin < 2 ^ 64) (hrout : rout < 2 ^ 64) :
    swapAmountOutWide a fee rin rout = swapOutSpec a fee rin rout := by
  have hsub : (10000 + (2 ^ 128 - fee)) % 2 ^ 128 = 10000 - fee := by omega
  have hmul1 : a * (10000 - fee) < 2 ^ 128 := by
    have h1 : a * (10000 - fee) ≤ a * 10000 := Nat.mul_le_mul_left a (by omega)
    have h2 : a * 10000 ≤ (2 ^ 64 - 1) * 10000 := Nat.mul_le_mul_right 10000 (by omega)
    omega
  have he_le : a * (10000 - fee) / 10000 ≤ a := effAmount_le a fee
  set e := a * (10000 - fee) / 10000 with he
  have hnum : e * rout < 2 ^ 128 := by
    have := Nat.mul_le_mul (le_trans he_le (by omega : a ≤ 2 ^ 64 - 1))
      (by omega : rout ≤ 2 ^ 64 - 1)
    omega
  have hden : rin + e < 2 ^ 128 := by omega
  show a * ((10000 + (2 ^ 128 - fee)) % 2 ^ 128) % 2 ^ 128 / 10000 *
        rout % 2 ^ 128 /
        ((rin + a * ((10000 + (2 ^ 128 - fee)) % 2 ^ 128) % 2 ^ 128 / 10000) % 2 ^ 128) =
      swapOutSpec a fee rin rout
  unfold swapOutSpec
  rw [hsub, Nat.mod_eq_of_lt hmul1, ← he, Nat.mod_eq_of_lt hnum, Nat.mod_eq_of_lt hden]

theorem swapAmountOut_eq_spec (a fee rin rout : Nat) (hfee : fee ≤ 10000)
    (ha : a < 2 ^ 64) (hrin : rin < 2 ^ 64) (hrout : rout < 2 ^ 64) :
    swapAmountOut a fee rin rout = swapOutSpec a fee rin rout := by
  rw [swapAmountOut_eq_wide_mod, swapAmountOutWide_eq_spec a fee rin rout hfee ha hrin hrout,
    Nat.mod_eq_of_lt (lt_of_le_of_lt (swapOutSpec_le a fee rin rout) hrout)]

theorem product_step (a e rin rout out : Nat) (hrin : 0 < rin) (hrout : 0 < rout)
    (hea : e ≤ a) (hout : out = e * rout / (rin + e)) :
    rin * rout ≤ (rin + a) * (rout - out) ∧
    (e < a → rin * rout < (rin + a) * (rout - out)) := by
  have hd : 0 < rin + e := by omega
  have hmul : out * (rin + e) ≤ e * rout := by
    rw [hout]; exact Nat.div_mul_le_self _ _
  have hlt : out < rout := by
    rw [hout]
    rw [Nat.div_lt_iff_lt_mul hd]
    calc e * rout = rout * e := Nat.mul_comm e rout
      _ < rout * e + rout * rin := Nat.lt_add_of_pos_right (Nat.mul_pos hrout hrin)
      _ = rout * (rin + e) := by ring
  obtain ⟨t, ht⟩ : ∃ t, rout = out + t := ⟨rout - out, by omega⟩
  obtain ⟨b, hb⟩ : ∃ b, a = e + b := ⟨a - e, by omega⟩
  have ht1 : 0 < t := by omega
  subst ht hb
  have key : out * rin ≤ e * t := by nlinarith [hmul]
  constructor
  · have hsub : (out + t) - out = t := by omega
    rw [hsub]
    nlinarith [key]
  · intro hlt2
    have hb1 : 0 < b := by omega
    have hsub : (out + t) - out = t := by omega
    rw [hsub]
    nlinarith [key, Nat.mul_pos hb1 ht1]

theorem divShare_le {vault lp supply : Nat} (h : lp ≤ supply) (h0 : supply ≠ 0) :
    vault * lp / supply ≤ vault := by
  calc vault * lp / supply ≤ vault * supply / supply :=
        Nat.div_le_div_right (Nat.mul_le_mul_left vault h)
    _ = vault := Nat.mul_div_cancel vault (Nat.pos_of_ne_zero h0)

theorem divShare_lt {vault lp supply : Nat} (h : lp < supply) (hv : 0 < vault) :
    vault * lp / supply < vault := by
  rw [Nat.div_lt_iff_lt_mul (by omega : 0 < supply)]
  exact mul_lt_mul_of_pos_left h hv

end Amm

namespace Amm

/-- Inversion of a successful `swap` in the `x_to_y = true` direction:
every guard held, the transfers were in range, and the final state is the
expected rebalancing. -/
theorem swap_true_ok {s s' : AmmState} {a m : Nat}
    (h : swap s a m true = .ok s') :
    s.locked = false ∧ a ≠ 0 ∧ a ≤ s.userX ∧ s.rx ≠ 0 ∧ s.ry ≠ 0 ∧
    m ≤ swapAmountOut a s.fee s.rx s.ry ∧ swapAmountOut a s.fee s.rx s.ry ≠ 0 ∧
    swapAmountOut a s.fee s.rx s.ry ≤ s.ry ∧
    s.rx + a < 2 ^ 64 ∧ s.userY + swapAmountOut a s.fee s.rx s.ry < 2 ^ 64 ∧
    s' = { s with userX := s.userX - a, rx := s.rx + a,
                  ry := s.ry - swapAmountOut a s.fee s.rx s.ry,
                  userY := s.userY + swapAmountOut a s.fee s.rx s.ry } := by
  unfold swap at h
  simp only [if_true, Bool.false_eq_true] at h
  split at h
  · exact absurd h (by simp)
  split at h
  · exact absurd h (by simp)
  split at h
  · exact absurd h (by simp)
  split at h
  · exact absurd h (by simp)
  split at h
  · exact absurd h (by simp)
  split at h
  · exact absurd h (by simp)
  split at h
  · exact absurd h (by simp)
  rename_i hnl hna hfunds hliq hslip hout0 hvault
  split at h
  next us vs vd ud htx hty =>
    obtain ⟨ht1, ht2, ht3⟩ := splTransfer_eq_some htx
    obtain ⟨hu1, hu2, hu3⟩ := splTransfer_eq_some hty
    rw [Prod.mk.injEq] at ht3 hu3
    obtain ⟨h5, h6⟩ := ht3
    obtain ⟨h7, h8⟩ := hu3
    subst h5 h6 h7 h8
    injection h with hs
    subst hs
    refine ⟨by simpa using hnl, hna, by omega, ?_, ?_, by omega, hout0, by omega, ht2, hu2, rfl⟩
    · intro hc; exact hliq (Or.inl hc)
    · intro hc; exact hliq (Or.inr hc)
  next => exact absurd h (by simp)

/-- Inversion of a successful `swap` in the `x_to_y = false` direction. -/
theorem swap_false_ok {s s' : AmmState} {a m : Nat}
    (h : swap s a m false = .ok s') :
    s.locked = false ∧ a ≠ 0 ∧ a ≤ s.userY ∧ s.ry ≠ 0 ∧ s.rx ≠ 0 ∧
    m ≤ swapAmountOut a s.fee s.ry s.rx ∧ swapAmountOut a s.fee s.ry s.rx ≠ 0 ∧
    swapAmountOut a s.fee s.ry s.rx ≤ s.rx ∧
    s.ry + a < 2 ^ 64 ∧ s.userX + swapAmountOut a s.fee s.ry s.rx < 2 ^ 64 ∧
    s' = { s with userY := s.userY - a, ry := s.ry + a,
                  rx := s.rx - swapAmountOut a s.fee s.ry s.rx,
                  userX := s.userX + swapAmountOut a s.fee s.ry s.rx } := by
  unfold swap at h
  simp only [Bool.false_eq_true, if_false] at h
  split at h
  · exact absurd h (by simp)
  split at h
  · exact absurd h (by simp)
  split at h
  · exact absurd h (by simp)
  split at h
  · exact absurd h (by simp)
  split at h
  · exact absurd h (by simp)
  split at h
  · exact absurd h (by simp)
  split at h
  · exact absurd h (by simp)
  rename_i hnl hna hfunds hliq hslip hout0 hvault
  split at h
  next us vs vd ud htx hty =>
    obtain ⟨ht1, ht2, ht3⟩ := splTransfer_eq_some htx
    obtain ⟨hu1, hu2, hu3⟩ := splTransfer_eq_some hty
    rw [Prod.mk.injEq] at ht3 hu3
    obtain ⟨h5, h6⟩ := ht3
    obtain ⟨h7, h8⟩ := hu3
    subst h5 h6 h7 h8
    injection h with hs
    subst hs
    refine ⟨by simpa using hnl, hna, by omega, ?_, ?_, by omega, hout0, by omega, ht2, hu2, rfl⟩
    · intro hc; exact hliq (Or.inl hc)
    · intro hc; exact hliq (Or.inr hc)
  next => exact absurd h (by simp)

/-- Inversion of a successful `deposit`: every guard held, the split came
from the bootstrap branch or the proportional branch, every ledger call was
in range, and the final state is the expected one. -/
theorem deposit_ok {s s' : AmmState} {amount maxX maxY : Nat}
    (h : deposit s amount maxX maxY = .ok s') :
    s.locked = false ∧ amount ≠ 0 ∧
    ∃ x y,
      ((s.supply = 0 ∧ s.rx = 0 ∧ s.ry = 0 ∧ x = maxX ∧ y = maxY) ∨
       (s.supply ≠ 0 ∧
        x = s.rx * amount % 2 ^ 128 / s.supply % 2 ^ 64 ∧
        y = s.ry * amount % 2 ^ 128 / s.supply % 2 ^ 64)) ∧
      x ≤ maxX ∧ y ≤ maxY ∧ x ≤ s.userX ∧ s.rx + x < 2 ^ 64 ∧
      y ≤ s.userY ∧ s.ry + y < 2 ^ 64 ∧
      s.supply + amount < 2 ^ 64 ∧ s.userLp + amount < 2 ^ 64 ∧
      s' = { s with userX := s.userX - x, rx := s.rx + x,
                    userY := s.userY - y, ry := s.ry + y,
                    supply := s.supply + amount, userLp := s.userLp + amount } := by
  unfold deposit at h
  split at h
  · exact absurd h (by simp)
  split at h
  · exact absurd h (by simp)
  rename_i hnl hna
  split at h
  next hboot =>
    simp only [le_refl, and_self, not_true_eq_false, if_false] at h
    split at h
    next => exact absurd h (by simp)
    next ux rx' htx =>
      split at h
      next => exact absurd h (by simp)
      next uy ry' hty =>
        split at h
        next => exact absurd h (by simp)
        next supply' ulp hmint =>
          obtain ⟨ht1, ht2, ht3⟩ := splTransfer_eq_some htx
          obtain ⟨hu1, hu2, hu3⟩ := splTransfer_eq_some hty
          obtain ⟨hm1, hm2, hm3⟩ := splMintTo_eq_some hmint
          rw [Prod.mk.injEq] at ht3 hu3 hm3
          obtain ⟨h5, h6⟩ := ht3
          obtain ⟨h7, h8⟩ := hu3
          obtain ⟨h9, h10⟩ := hm3
          subst h5 h6 h7 h8 h9 h10
          injection h with hs
          subst hs
          exact ⟨by simpa using hnl, hna, maxX, maxY,
            Or.inl ⟨hboot.1, hboot.2.1, hboot.2.2, rfl, rfl⟩,
            le_refl _, le_refl _, ht1, ht2, hu1, hu2, hm1, hm2, rfl⟩
  next hboot =>
    cases hda : depositAmounts s.rx s.ry s.supply amount with
    | error e => rw [hda] at h; exact absurd h (by simp)
    | ok xy =>
      obtain ⟨x, y⟩ := xy
      rw [hda] at h
      dsimp only at h
      unfold depositAmounts at hda
      split at hda
      · exact absurd hda (by simp)
      rename_i hsup
      injection hda with hxy
      rw [Prod.mk.injEq] at hxy
      obtain ⟨hx, hy⟩ := hxy
      split at h
      · exact absurd h (by simp)
      rename_i hslip
      rw [not_not] at hslip
      split at h
      next => exact absurd h (by simp)
      next ux rx' htx =>
        split at h
        next => exact absurd h (by simp)
        next uy ry' hty =>
          split at h
          next => exact absurd h (by simp)
          next supply' ulp hmint =>
            obtain ⟨ht1, ht2, ht3⟩ := splTransfer_eq_some htx
            obtain ⟨hu1, hu2, hu3⟩ := splTransfer_eq_some hty
            obtain ⟨hm1, hm2, hm3⟩ := splMintTo_eq_some hmint
            rw [Prod.mk.injEq] at ht3 hu3 hm3
            obtain ⟨h5, h6⟩ := ht3
            obtain ⟨h7, h8⟩ := hu3
            obtain ⟨h9, h10⟩ := hm3
            subst h5 h6 h7 h8 h9 h10
            injection h with hs
            subst hs
            exact ⟨by simpa using hnl, hna, x, y, Or.inr ⟨hsup, hx.symm, hy.symm⟩,
              hslip.1, hslip.2, ht1, ht2, hu1, hu2, hm1, hm2, rfl⟩

/-- Inversion of a successful `withdraw`: every guard held, both splits
computed, the burn and both transfers were in range, and the final state is
the expected one. -/
theorem withdraw_ok {s s' : AmmState} {lp minX minY : Nat}
    (h : withdraw s lp minX minY = .ok s') :
    s.locked = false ∧ lp ≠ 0 ∧ lp ≤ s.userLp ∧ s.supply ≠ 0 ∧
    s.rx * lp < 2 ^ 128 ∧ s.ry * lp < 2 ^ 128 ∧ lp ≤ s.supply ∧
    minX ≤ s.rx * lp / s.supply % 2 ^ 64 ∧ minY ≤ s.ry * lp / s.supply % 2 ^ 64 ∧
    0 < s.rx * lp / s.supply % 2 ^ 64 ∧ 0 < s.ry * lp / s.supply % 2 ^ 64 ∧
    s.rx * lp / s.supply % 2 ^ 64 ≤ s.rx ∧ s.ry * lp / s.supply % 2 ^ 64 ≤ s.ry ∧
    s.userX + s.rx * lp / s.supply % 2 ^ 64 < 2 ^ 64 ∧
    s.userY + s.ry * lp / s.supply % 2 ^ 64 < 2 ^ 64 ∧
    s' = { s with rx := s.rx - s.rx * lp / s.supply % 2 ^ 64,
                  userX := s.userX + s.rx * lp / s.supply % 2 ^ 64,
                  ry := s.ry - s.ry * lp / s.supply % 2 ^ 64,
                  userY := s.userY + s.ry * lp / s.supply % 2 ^ 64,
                  supply := s.supply - lp, userLp := s.userLp - lp } := by
  unfold withdraw at h
  split at h
  · exact absurd h (by simp)
  split at h
  · exact absurd h (by simp)
  split at h
  · exact absurd h (by simp)
  split at h
  · exact absurd h (by simp)
  rename_i hnl hlp hfunds hsup
  cases hwx : withdrawSplit s.rx s.supply lp with
  | none => rw [hwx] at h; exact absurd h (by simp)
  | some xOut =>
    cases hwy : withdrawSplit s.ry s.supply lp with
    | none => rw [hwx, hwy] at h; exact absurd h (by simp)
    | some yOut =>
      rw [hwx, hwy] at h
      dsimp only at h
      obtain ⟨hmx, _, hxval⟩ := withdrawSplit_eq_some hwx
      obtain ⟨hmy, _, hyval⟩ := withdrawSplit_eq_some hwy
      subst hxval hyval
      split at h
      · exact absurd h (by simp)
      rename_i hslip
      rw [not_not] at hslip
      split at h
      · exact absurd h (by simp)
      rename_i hpos
      rw [not_not] at hpos
      split at h
      · exact absurd h (by simp)
      rename_i hvx
      split at h
      · exact absurd h (by simp)
      rename_i hvy
      split at h
      next => exact absurd h (by simp)
      next supply' ulp hburn =>
        split at h
        next => exact absurd h (by simp)
        next rx' ux htx =>
          split at h
          next => exact absurd h (by simp)
          next ry' uy hty =>
            obtain ⟨hb1, hb2, hb3⟩ := splBurn_eq_some hburn
            obtain ⟨ht1, ht2, ht3⟩ := splTransfer_eq_some htx
            obtain ⟨hu1, hu2, hu3⟩ := splTransfer_eq_some hty
            rw [Prod.mk.injEq] at hb3 ht3 hu3
            obtain ⟨h5, h6⟩ := hb3
            obtain ⟨h7, h8⟩ := ht3
            obtain ⟨h9, h10⟩ := hu3
            subst h5 h6 h7 h8 h9 h10
            injection h with hs
            subst hs
            exact ⟨by simpa using hnl, hlp, by omega, hsup, hmx, hmy, hb1, hslip.1, hslip.2,
              hpos.1, hpos.2, by omega, by omega, ht2, hu2, rfl⟩

end Amm

namespace Amm

/-- A successful swap preserves well-formedness of the state. -/
theorem WF_swap {s s' : AmmState} {a m : Nat} {d : Bool}
    (hwf : WF s) (h : swap s a m d = .ok s') : WF s' := by
  obtain ⟨h1, h2, h3, h4, h5, h6, h7, h8⟩ := hwf
  cases d
  case false =>
    obtain ⟨_, _, hfunds, _, _, _, _, hle, hb1, hb2, hs⟩ := swap_false_ok h
    subst hs
    unfold WF
    dsimp only
    exact ⟨by omega, hb1, h3, hb2, by omega, h6, h7, h8⟩
  case true =>
    obtain ⟨_, _, hfunds, _, _, _, _, hle, hb1, hb2, hs⟩ := swap_true_ok h
    subst hs
    unfold WF
    dsimp only
    exact ⟨hb1, by omega, h3, by omega, hb2, h6, h7, h8⟩

/-- One successful swap never decreases the reserve product, and strictly
increases it when the fee is positive (under a well-formed pre-state). -/
theorem swap_product_step {s s' : AmmState} {a m : Nat} {d : Bool}
    (hwf : WF s) (h : swap s a m d = .ok s') :
    s.rx * s.ry ≤ s'.rx * s'.ry ∧ (0 < s.fee → s.rx * s.ry < s'.rx * s'.ry) := by
  obtain ⟨h1, h2, h3, h4, h5, h6, h7, h8⟩ := hwf
  cases d
  case false =>
    obtain ⟨_, hna, hfunds, hry0, hrx0, _, hout0, hle, _, _, hs⟩ := swap_false_ok h
    have ha64 : a < 2 ^ 64 := by omega
    have heq := swapAmountOut_eq_spec a s.fee s.ry s.rx (by omega) ha64 h2 h1
    have hout : swapAmountOut a s.fee s.ry s.rx =
        a * (10000 - s.fee) / 10000 * s.rx /
          (s.ry + a * (10000 - s.fee) / 10000) := by rw [heq]; rfl
    have hps := product_step a (a * (10000 - s.fee) / 10000) s.ry s.rx
      (swapAmountOut a s.fee s.ry s.rx) (by omega) (by omega)
      (effAmount_le a s.fee) hout
    subst hs
    dsimp only
    constructor
    · calc s.rx * s.ry = s.ry * s.rx := Nat.mul_comm _ _
        _ ≤ (s.ry + a) * (s.rx - swapAmountOut a s.fee s.ry s.rx) := hps.1
        _ = (s.rx - swapAmountOut a s.fee s.ry s.rx) * (s.ry + a) := Nat.mul_comm _ _
    · intro hfee
      have hstrict := hps.2 (effAmount_lt a s.fee (by omega) hfee)
      calc s.rx * s.ry = s.ry * s.rx := Nat.mul_comm _ _
        _ < (s.ry + a) * (s.rx - swapAmountOut a s.fee s.ry s.rx) := hstrict
        _ = (s.rx - swapAmountOut a s.fee s.ry s.rx) * (s.ry + a) := Nat.mul_comm _ _
  case true =>
    obtain ⟨_, hna, hfunds, hrx0, hry0, _, hout0, hle, _, _, hs⟩ := swap_true_ok h
    have ha64 : a < 2 ^ 64 := by omega
    have heq := swapAmountOut_eq_spec a s.fee s.rx s.ry (by omega) ha64 h1 h2
    have hout : swapAmountOut a s.fee s.rx s.ry =
        a * (10000 - s.fee) / 10000 * s.ry /
          (s.rx + a * (10000 - s.fee) / 10000) := by rw [heq]; rfl
    have hps := product_step a (a * (10000 - s.fee) / 10000) s.rx s.ry
      (swapAmountOut a s.fee s.rx s.ry) (by omega) (by omega)
      (effAmount_le a s.fee) hout
    subst hs
    dsimp only
    constructor
    · exact hps.1
    · intro hfee
      exact hps.2 (effAmount_lt a s.fee (by omega) hfee)

/-- The reserve product is monotone along any all-successful swap sequence. -/
theorem applySwaps_product (ops : List (Nat × Nat × Bool)) :
    ∀ t t' : AmmState, WF t → applySwaps t ops = .ok t' →
      t.rx * t.ry ≤ t'.rx * t'.ry := by
  induction ops with
  | nil =>
    intro t t' _ h
    injection h with h2
    subst h2
    exact le_refl _
  | cons op rest ih =>
    intro t t' hwf h
    obtain ⟨a, m, d⟩ := op
    unfold applySwaps at h
    cases hsw : swap t a m d with
    | error e => rw [hsw] at h; exact absurd h (by simp)
    | ok u =>
      rw [hsw] at h
      dsimp only at h
      exact le_trans (swap_product_step hwf hsw).1 (ih u t' (WF_swap hwf hsw) h)

end Amm

/-! ## Claim theorems -/

namespace Amm

/-- C1: for every Swap with `0 ≤ fee_bps < 10_000`, 64-bit input and both
pre-trade reserves positive and 64-bit, the computed output equals the
spec's two-step formula (fee floor-deducted first, then the floored
constant-product quotient, in 128-bit arithmetic); in particular with
`fee_bps = 30`, `R_in = R_out = 1_000_000`, `amount_in = 1_000` the
computed output is exactly `996`. -/
theorem swap_output_matches_spec_formula (a fee rin rout : Nat)
    (hfee : fee < 10000) (ha : a < 2 ^ 64)
    (hrin : rin < 2 ^ 64) (hrout : rout < 2 ^ 64)
    (hrin0 : 0 < rin) (hrout0 : 0 < rout) :
    swapAmountOut a fee rin rout = swapOutSpec a fee rin rout ∧
    swapAmountOut 1000 30 1000000 1000000 = 996 :=
  ⟨swapAmountOut_eq_spec a fee rin rout (le_of_lt hfee) ha hrin hrout, by decide⟩

/-- Witness for C1 at the spec's example point. -/
theorem swap_output_matches_spec_formula_witness :
    swapAmountOut 1000 30 1000000 1000000 = swapOutSpec 1000 30 1000000 1000000 ∧
    swapAmountOut 1000 30 1000000 1000000 = 996 :=
  swap_output_matches_spec_formula 1000 30 1000000 1000000 (by decide) (by decide)
    (by decide) (by decide) (by decide) (by decide)

/-- C5: with `locked = true`, every Deposit, Swap and Withdraw fails with
`PoolLocked`, and the state a transition leaves behind is the unchanged
pre-state. -/
theorem locked_blocks_all_mutations (s : AmmState) (hl : s.locked = true) :
    (∀ amount maxX maxY, deposit s amount maxX maxY = .error .poolLocked ∧
      applyResult s (deposit s amount maxX maxY) = s) ∧
    (∀ a m d, swap s a m d = .error .poolLocked ∧
      applyResult s (swap s a m d) = s) ∧
    (∀ lp mnx mny, withdraw s lp mnx mny = .error .poolLocked ∧
      applyResult s (withdraw s lp mnx mny) = s) := by
  refine ⟨fun amount maxX maxY => ?_, fun a m d => ?_, fun lp mnx mny => ?_⟩
  · have hd : deposit s amount maxX maxY = .error .poolLocked := by
      simp [deposit, hl]
    exact ⟨hd, by rw [hd]; rfl⟩
  · have hd : swap s a m d = .error .poolLocked := by
      simp [swap, hl]
    exact ⟨hd, by rw [hd]; rfl⟩
  · have hd : withdraw s lp mnx mny = .error .poolLocked := by
      simp [withdraw, hl]
    exact ⟨hd, by rw [hd]; rfl⟩

/-- Witness for C5 on a concrete locked pool. -/
theorem locked_blocks_all_mutations_witness :
    deposit { rx := 5, ry := 7, supply := 3, userX := 9, userY := 9, userLp := 3,
              locked := true, fee := 30 } 1 2 2 = .error .poolLocked ∧
    swap { rx := 5, ry := 7, supply := 3, userX := 9, userY := 9, userLp := 3,
           locked := true, fee := 30 } 1 0 true = .error .poolLocked ∧
    withdraw { rx := 5, ry := 7, supply := 3, userX := 9, userY := 9, userLp := 3,
               locked := true, fee := 30 } 1 0 0 = .error .poolLocked := by
  have h := locked_blocks_all_mutations
    { rx := 5, ry := 7, supply := 3, userX := 9, userY := 9, userLp := 3,
      locked := true, fee := 30 } (by decide)
  exact ⟨(h.1 1 2 2).1, (h.2.1 1 0 true).1, (h.2.2 1 0 0).1⟩

/-- C8: with identical `lp_amount`, reserves and supply, the deposit split
yields amounts at least the withdraw split's, component-wise (in this code
they coincide exactly, so rounding never moves value away from the pool). -/
theorem withdraw_then_deposit_rounding (rx ry supply lp wx wy dx dy : Nat)
    (hwx : withdrawSplit rx supply lp = some wx)
    (hwy : withdrawSplit ry supply lp = some wy)
    (hd : depositAmounts rx ry supply lp = .ok (dx, dy)) :
    wx ≤ dx ∧ wy ≤ dy := by
  obtain ⟨hmx, hsup, hx⟩ := withdrawSplit_eq_some hwx
  obtain ⟨hmy, _, hy⟩ := withdrawSplit_eq_some hwy
  unfold depositAmounts at hd
  rw [if_neg hsup] at hd
  injection hd with hxy
  rw [Prod.mk.injEq] at hxy
  obtain ⟨hdx, hdy⟩ := hxy
  subst hx hy
  rw [← hdx, ← hdy, Nat.mod_eq_of_lt hmx, Nat.mod_eq_of_lt hmy]
  exact ⟨le_refl _, le_refl _⟩

/-- Witness for C8 on concrete reserves. -/
theorem withdraw_then_deposit_rounding_witness : (500 : Nat) ≤ 500 ∧ (1000 : Nat) ≤ 1000 :=
  withdraw_then_deposit_rounding 1000 2000 100 50 500 1000 500 1000
    (by decide) (by decide) (by decide)

/-- C9: Initialize persists `locked = false`, stores the supplied `fee_bps`
verbatim, and starts with zero LP supply and empty vaults; no
`fee_bps < 10_000` range check is performed, witnessed by the out-of-range
value `60_000` also being stored unchanged. -/
theorem init_stores_fee_verbatim (fee ux uy : Nat) :
    (initPool fee ux uy).locked = false ∧ (initPool fee ux uy).fee = fee ∧
    (initPool fee ux uy).supply = 0 ∧ (initPool fee ux uy).rx = 0 ∧
    (initPool fee ux uy).ry = 0 ∧ (initPool 60000 ux uy).fee = 60000 :=
  ⟨rfl, rfl, rfl, rfl, rfl, rfl⟩

end Amm

namespace Amm

/-- C3: the first deposit on a pool with zero LP supply (its vaults are then
also empty: every pool whose only mutations went through the handlers has
zero reserves at zero supply) transfers `(max_x, max_y)` verbatim into the
vaults and mints exactly the requested LP amount to the caller. -/
theorem bootstrap_deposit_sets_reserves (s : AmmState) (amount maxX maxY : Nat)
    (hwf : WF s) (hl : s.locked = false) (hsup : s.supply = 0)
    (hrx : s.rx = 0) (hry : s.ry = 0) (hamt : amount ≠ 0) (hamt64 : amount < 2 ^ 64)
    (hx : maxX ≤ s.userX) (hy : maxY ≤ s.userY) :
    deposit s amount maxX maxY =
      .ok { s with rx := maxX, ry := maxY, supply := amount,
                   userX := s.userX - maxX, userY := s.userY - maxY,
                   userLp := amount } := by
  obtain ⟨h1, h2, h3, h4, h5, h6, h7, h8⟩ := hwf
  have hulp : s.userLp = 0 := by omega
  have hbx : 0 + maxX < 2 ^ 64 := by omega
  have hby : 0 + maxY < 2 ^ 64 := by omega
  have hbm : 0 + amount < 2 ^ 64 := by omega
  have ht1 : splTransfer s.userX 0 maxX = some (s.userX - maxX, maxX) := by
    unfold splTransfer
    rw [if_pos ⟨hx, hbx⟩]
    norm_num
  have ht2 : splTransfer s.userY 0 maxY = some (s.userY - maxY, maxY) := by
    unfold splTransfer
    rw [if_pos ⟨hy, hby⟩]
    norm_num
  have hm : splMintTo 0 0 amount = some (amount, amount) := by
    unfold splMintTo
    rw [if_pos ⟨hbm, hbm⟩]
    norm_num
  simp [deposit, hl, hamt, hsup, hrx, hry, ht1, ht2, hm, hulp]

/-- Witness for C3: bootstrap deposit on a fresh pool. -/
theorem bootstrap_deposit_sets_reserves_witness :
    deposit (initPool 30 9 8) 3 5 7 =
      .ok { rx := 5, ry := 7, supply := 3, userX := 4, userY := 1, userLp := 3,
            locked := false, fee := 30 } := by
  have h := bootstrap_deposit_sets_reserves (initPool 30 9 8) 3 5 7
    (by decide) (by decide) (by decide) (by decide) (by decide) (by decide)
    (by decide) (by decide) (by decide)
  exact h

/-- C6: each successful Withdraw pays out the proportional floor shares
`x = floor(R_x * lp / supply)` and `y = floor(R_y * lp / supply)` computed
in widened 128-bit arithmetic (the narrowing back to `u64` is lossless), and
the handler rejects a withdrawal against `supply = 0` with
`NoLiquidityInPool` before any computation (guard order: lock, zero amount,
caller LP balance, then zero supply; on a ledger where a token balance never
exceeds its mint supply the balance guard fires first, so the zero-supply
guard is about the handler in isolation). -/
theorem withdraw_proportional_amounts (s s' t : AmmState) (lp mnx mny lp2 mnx2 mny2 : Nat)
    (hwf : WF s) (hok : withdraw s lp mnx mny = .ok s')
    (htl : t.locked = false) (hlp2 : lp2 ≠ 0) (hfunds2 : lp2 ≤ t.userLp)
    (htsup : t.supply = 0) :
    (s'.userX = s.userX + s.rx * lp / s.supply ∧
     s'.userY = s.userY + s.ry * lp / s.supply ∧
     s'.rx = s.rx - s.rx * lp / s.supply ∧
     s'.ry = s.ry - s.ry * lp / s.supply ∧
     s'.supply = s.supply - lp ∧ 0 < lp ∧ 0 < s.supply) ∧
    withdraw t lp2 mnx2 mny2 = .error .noLiquidityInPool := by
  obtain ⟨h1, h2, h3, h4, h5, h6, h7, h8⟩ := hwf
  constructor
  · obtain ⟨hnl, hlp, hfunds, hsup, hmx, hmy, hlps, _, _, _, _, hxle, hyle, _, _, hs⟩ :=
      withdraw_ok hok
    have hmodx : s.rx * lp / s.supply % 2 ^ 64 = s.rx * lp / s.supply :=
      Nat.mod_eq_of_lt (lt_of_le_of_lt (divShare_le hlps hsup) h1)
    have hmody : s.ry * lp / s.supply % 2 ^ 64 = s.ry * lp / s.supply :=
      Nat.mod_eq_of_lt (lt_of_le_of_lt (divShare_le hlps hsup) h2)
    subst hs
    dsimp only
    rw [hmodx, hmody]
    exact ⟨rfl, rfl, rfl, rfl, rfl, by omega, by omega⟩
  · simp [withdraw, htl, hlp2, htsup, Nat.not_lt.mpr hfunds2]

/-- Witness for C6: a concrete proportional withdrawal, and the zero-supply
rejection on a second (raw) handler input. -/
theorem withdraw_proportional_amounts_witness :
    ((500 : Nat) = 0 + 1000 * 50 / 100 ∧
     (1000 : Nat) = 0 + 2000 * 50 / 100 ∧
     (500 : Nat) = 1000 - 1000 * 50 / 100 ∧
     (1000 : Nat) = 2000 - 2000 * 50 / 100 ∧
     (50 : Nat) = 100 - 50 ∧ (0 : Nat) < 50 ∧ (0 : Nat) < 100) ∧
    withdraw { rx := 9, ry := 9, supply := 0, userX := 0, userY := 0, userLp := 5,
               locked := false, fee := 30 } 3 0 0 = .error .noLiquidityInPool :=
  withdraw_proportional_amounts
    { rx := 1000, ry := 2000, supply := 100, userX := 0, userY := 0,
      userLp := 50, locked := false, fee := 30 }
    { rx := 500, ry := 1000, supply := 50, userX := 500, userY := 1000,
      userLp := 0, locked := false, fee := 30 }
    { rx := 9, ry := 9, supply := 0, userX := 0, userY := 0, userLp := 5,
      locked := false, fee := 30 }
    50 0 0 3 0 0 (by decide) (by decide) (by decide) (by decide) (by decide) (by decide)

end Amm

namespace Amm

/-- C7: when the caller's `min_amount_out` strictly exceeds the output the
constant-product formula computes, the swap fails with `SlippageExceeded`
and the state is unchanged; the slippage check precedes the zero-output
`InvalidAmount` check, so it also fires when the computed output is zero and
`min_amount_out` is positive. -/
theorem swap_slippage_rejected (s : AmmState) (a minOut : Nat) (d : Bool)
    (hwf : WF s) (hl : s.locked = false) (ha : a ≠ 0) (ha64 : a < 2 ^ 64)
    (hfunds : a ≤ (if d then s.userX else s.userY))
    (hsrc : 0 < (if d then s.rx else s.ry)) (hdst : 0 < (if d then s.ry else s.rx))
    (hmin : swapOutSpec a s.fee (if d then s.rx else s.ry) (if d then s.ry else s.rx)
      < minOut) :
    swap s a minOut d = .error .slippageExceeded ∧
    applyResult s (swap s a minOut d) = s := by
  obtain ⟨h1, h2, h3, h4, h5, h6, h7, h8⟩ := hwf
  have hmain : swap s a minOut d = .error .slippageExceeded := by
    cases d
    case false =>
      simp only [Bool.false_eq_true, if_false] at hfunds hsrc hdst hmin
      rw [← swapAmountOut_eq_spec a s.fee s.ry s.rx (by omega) ha64 h2 h1] at hmin
      have hsrc2 : s.ry ≠ 0 := by omega
      have hdst2 : s.rx ≠ 0 := by omega
      simp [swap, hl, ha, Nat.not_lt.mpr hfunds, hsrc2, hdst2, hmin]
    case true =>
      simp only [if_true] at hfunds hsrc hdst hmin
      rw [← swapAmountOut_eq_spec a s.fee s.rx s.ry (by omega) ha64 h1 h2] at hmin
      have hsrc2 : s.rx ≠ 0 := by omega
      have hdst2 : s.ry ≠ 0 := by omega
      simp [swap, hl, ha, Nat.not_lt.mpr hfunds, hsrc2, hdst2, hmin]
  exact ⟨hmain, by rw [hmain]; rfl⟩

/-- Witness for C7: the true computable output is 996, the caller demands
at least 997. -/
theorem swap_slippage_rejected_witness :
    swap { rx := 1000000, ry := 1000000, supply := 1000, userX := 1000, userY := 0,
           userLp := 1000, locked := false, fee := 30 } 1000 997 true =
      .error .slippageExceeded := by
  exact (swap_slippage_rejected
    { rx := 1000000, ry := 1000000, supply := 1000, userX := 1000, userY := 0,
      userLp := 1000, locked := false, fee := 30 } 1000 997 true
    (by decide) (by decide) (by decide) (by decide) (by decide) (by decide)
    (by decide) (by decide)).1

/-- C10: for every swap reaching the output computation from a well-formed
state with positive reserves, the computed output is strictly below the
pre-trade destination reserve (so the `vault_dst.amount >= amount_out`
require can never fail on its own), the `as u64` narrowing of the 128-bit
quotient is lossless, and after any successful swap the destination vault
balance stays strictly positive. -/
theorem swap_output_strictly_below_reserve (s : AmmState) (a m : Nat) (d : Bool)
    (hwf : WF s) (ha64 : a < 2 ^ 64)
    (hsrc : 0 < (if d then s.rx else s.ry)) (hdst : 0 < (if d then s.ry else s.rx)) :
    swapAmountOut a s.fee (if d then s.rx else s.ry) (if d then s.ry else s.rx) <
      (if d then s.ry else s.rx) ∧
    swapAmountOut a s.fee (if d then s.rx else s.ry) (if d then s.ry else s.rx) =
      swapAmountOutWide a s.fee (if d then s.rx else s.ry) (if d then s.ry else s.rx) ∧
    (∀ s', swap s a m d = .ok s' → 0 < (if d then s'.ry else s'.rx)) := by
  obtain ⟨h1, h2, h3, h4, h5, h6, h7, h8⟩ := hwf
  cases d
  case false =>
    simp only [Bool.false_eq_true, if_false] at hsrc hdst ⊢
    have hlt : swapAmountOut a s.fee s.ry s.rx < s.rx := by
      rw [swapAmountOut_eq_spec a s.fee s.ry s.rx (by omega) ha64 h2 h1]
      exact swapOutSpec_lt a s.fee s.ry s.rx hsrc hdst
    refine ⟨hlt, ?_, ?_⟩
    · rw [swapAmountOut_eq_spec a s.fee s.ry s.rx (by omega) ha64 h2 h1,
        swapAmountOutWide_eq_spec a s.fee s.ry s.rx (by omega) ha64 h2 h1]
    · intro s' hsw
      obtain ⟨_, _, _, _, _, _, _, _, _, _, hs⟩ := swap_false_ok hsw
      subst hs
      dsimp only
      omega
  case true =>
    simp only [if_true] at hsrc hdst ⊢
    have hlt : swapAmountOut a s.fee s.rx s.ry < s.ry := by
      rw [swapAmountOut_eq_spec a s.fee s.rx s.ry (by omega) ha64 h1 h2]
      exact swapOutSpec_lt a s.fee s.rx s.ry hsrc hdst
    refine ⟨hlt, ?_, ?_⟩
    · rw [swapAmountOut_eq_spec a s.fee s.rx s.ry (by omega) ha64 h1 h2,
        swapAmountOutWide_eq_spec a s.fee s.rx s.ry (by omega) ha64 h1 h2]
    · intro s' hsw
      obtain ⟨_, _, _, _, _, _, _, _, _, _, hs⟩ := swap_true_ok hsw
      subst hs
      dsimp only
      omega

/-- Witness for C10 at the spec's example pool. -/
theorem swap_output_strictly_below_reserve_witness :
    swapAmountOut 1000 30 1000000 1000000 < 1000000 ∧
    swapAmountOut 1000 30 1000000 1000000 = swapAmountOutWide 1000 30 1000000 1000000 := by
  have h := swap_output_strictly_below_reserve
    { rx := 1000000, ry := 1000000, supply := 1000, userX := 1000, userY := 0,
      userLp := 1000, locked := false, fee := 30 } 1000 0 true
    (by decide) (by decide) (by decide) (by decide)
  exact ⟨h.1, h.2.1⟩

end Amm

namespace Amm

/-- C2: a successful swap from a well-formed state (`fee_bps < 10_000`,
64-bit balances) never decreases the reserve product, strictly increases it
when `fee_bps > 0`, and the product is monotone along every all-successful
swap sequence. -/
theorem swap_product_nondecreasing (s s' : AmmState) (a m : Nat) (d : Bool)
    (hwf : WF s) (h : swap s a m d = .ok s') :
    s.rx * s.ry ≤ s'.rx * s'.ry ∧
    (0 < s.fee → s.rx * s.ry < s'.rx * s'.ry) ∧
    (∀ (ops : List (Nat × Nat × Bool)) (t t' : AmmState), WF t →
      applySwaps t ops = .ok t' → t.rx * t.ry ≤ t'.rx * t'.ry) :=
  ⟨(swap_product_step hwf h).1, (swap_product_step hwf h).2,
   fun ops t t' hwt hap => applySwaps_product ops t t' hwt hap⟩

/-- Witness for C2: the spec's example swap strictly grows the product. -/
theorem swap_product_nondecreasing_witness :
    (1000000 * 1000000 : Nat) ≤ 1001000 * 999004 ∧
    (1000000 * 1000000 : Nat) < 1001000 * 999004 := by
  have h := swap_product_nondecreasing
    { rx := 1000000, ry := 1000000, supply := 1000, userX := 1000, userY := 0,
      userLp := 1000, locked := false, fee := 30 }
    { rx := 1001000, ry := 999004, supply := 1000, userX := 0, userY := 996,
      userLp := 1000, locked := false, fee := 30 } 1000 0 true
    (by decide) (by decide)
  exact ⟨h.1, h.2.1 (by decide)⟩

end Amm

namespace Amm

/-- C4 counterexample: from a freshly initialized pool, a first deposit with
`max_x = max_y = 0` and LP amount `1` succeeds (token transfers of amount
zero are legal), minting LP supply against two empty vaults; the resulting
state violates `supply == 0 ⇔ R_x == 0 ∧ R_y == 0`. -/
theorem pool_invariant_counterexample :
    deposit (initPool 30 0 0) 1 0 0 =
      .ok { rx := 0, ry := 0, supply := 1, userX := 0, userY := 0, userLp := 1,
            locked := false, fee := 30 } ∧
    ¬ poolIntact { rx := 0, ry := 0, supply := 1, userX := 0, userY := 0,
                   userLp := 1, locked := false, fee := 30 } := by
  constructor
  · decide
  · decide

/-- C4 (amended): the invariant `supply == 0 ⇔ R_x == 0 ∧ R_y == 0` holds
after Initialize and is preserved by every successful Deposit, Swap and
Withdraw from a well-formed state satisfying it — provided a deposit made at
zero LP supply requests a positive `max_x` or a positive `max_y` (the
counterexample shows the unamended claim fails for `max_x = max_y = 0`). -/
theorem pool_invariant_preserved (s s' : AmmState) (op : AmmOp)
    (hwf : WF s) (hint : poolIntact s)
    (hboot : ∀ amount maxX maxY, op = AmmOp.deposit amount maxX maxY →
      s.supply = 0 → 0 < maxX ∨ 0 < maxY)
    (h : runOp s op = .ok s') :
    (poolIntact s' ∧ WF s') ∧ ∀ fee ux uy, poolIntact (initPool fee ux uy) := by
  have hbase : ∀ fee ux uy, poolIntact (initPool fee ux uy) := by
    intro fee ux uy
    unfold poolIntact initPool
    simp
  obtain ⟨h1, h2, h3, h4, h5, h6, h7, h8⟩ := hwf
  unfold poolIntact at hint
  refine ⟨?_, hbase⟩
  cases op with
  | deposit amount maxX maxY =>
    have hb := hboot amount maxX maxY rfl
    have h' : deposit s amount maxX maxY = .ok s' := h
    obtain ⟨hnl, hna, x, y, hsplit, hxmax, hymax, hxu, hxb, hyu, hyb, hsb, hlb, hs⟩ :=
      deposit_ok h'
    subst hs
    constructor
    · unfold poolIntact
      dsimp only
      rcases hsplit with ⟨hsup0, hrx0, hry0, hxv, hyv⟩ | ⟨hsupn, hxv, hyv⟩
      · subst hxv hyv
        rcases hb hsup0 with hbx | hby <;> omega
      · omega
    · unfold WF
      dsimp only
      omega
  | swap amountIn minAmountOut xToY =>
    have h' : swap s amountIn minAmountOut xToY = .ok s' := h
    have hwfs : WF s' := WF_swap ⟨h1, h2, h3, h4, h5, h6, h7, h8⟩ h'
    refine ⟨?_, hwfs⟩
    cases xToY
    case false =>
      obtain ⟨_, hna, hfunds, hry0, hrx0, _, hout0, hle, _, _, hs⟩ := swap_false_ok h'
      have hlt : swapAmountOut amountIn s.fee s.ry s.rx < s.rx := by
        rw [swapAmountOut_eq_spec amountIn s.fee s.ry s.rx (by omega) (by omega) h2 h1]
        exact swapOutSpec_lt _ _ _ _ (by omega) (by omega)
      subst hs
      unfold poolIntact
      dsimp only
      omega
    case true =>
      obtain ⟨_, hna, hfunds, hrx0, hry0, _, hout0, hle, _, _, hs⟩ := swap_true_ok h'
      have hlt : swapAmountOut amountIn s.fee s.rx s.ry < s.ry := by
        rw [swapAmountOut_eq_spec amountIn s.fee s.rx s.ry (by omega) (by omega) h1 h2]
        exact swapOutSpec_lt _ _ _ _ (by omega) (by omega)
      subst hs
      unfold poolIntact
      dsimp only
      omega
  | withdraw lp mnx mny =>
    have h' : withdraw s lp mnx mny = .ok s' := h
    obtain ⟨hnl, hlp, hfunds, hsup, hmx, hmy, hlps, _, _, hpx, hpy, hxle, hyle, hbx, hby, hs⟩ :=
      withdraw_ok h'
    have hmodx : s.rx * lp / s.supply % 2 ^ 64 = s.rx * lp / s.supply :=
      Nat.mod_eq_of_lt (lt_of_le_of_lt (divShare_le hlps hsup) h1)
    have hmody : s.ry * lp / s.supply % 2 ^ 64 = s.ry * lp / s.supply :=
      Nat.mod_eq_of_lt (lt_of_le_of_lt (divShare_le hlps hsup) h2)
    subst hs
    rcases Nat.lt_or_ge lp s.supply with hcase | hcase
    · have hxlt : s.rx * lp / s.supply % 2 ^ 64 < s.rx := by
        rw [hmodx]
        exact divShare_lt hcase (by omega)
      have hylt : s.ry * lp / s.supply % 2 ^ 64 < s.ry := by
        rw [hmody]
        exact divShare_lt hcase (by omega)
      constructor
      · unfold poolIntact
        dsimp only
        omega
      · unfold WF
        dsimp only
        omega
    · have heq : lp = s.supply := le_antisymm hlps hcase
      have hxfull : s.rx * lp / s.supply % 2 ^ 64 = s.rx := by
        rw [hmodx, heq]
        exact Nat.mul_div_cancel s.rx (by omega)
      have hyfull : s.ry * lp / s.supply % 2 ^ 64 = s.ry := by
        rw [hmody, heq]
        exact Nat.mul_div_cancel s.ry (by omega)
      constructor
      · unfold poolIntact
        dsimp only
        omega
      · unfold WF
        dsimp only
        omega

end Amm

namespace Amm

/-- Witness for the amended C4: a concrete successful swap preserves the
invariant. -/
theorem pool_invariant_preserved_witness :
    poolIntact { rx := 1001000, ry := 999004, supply := 1000, userX := 0, userY := 996,
                 userLp := 1000, locked := false, fee := 30 } ∧
    WF { rx := 1001000, ry := 999004, supply := 1000, userX := 0, userY := 996,
         userLp := 1000, locked := false, fee := 30 } :=
  (pool_invariant_preserved
    { rx := 1000000, ry := 1000000, supply := 1000, userX := 1000, userY := 0,
      userLp := 1000, locked := false, fee := 30 }
    { rx := 1001000, ry := 999004, supply := 1000, userX := 0, userY := 996,
      userLp := 1000, locked := false, fee := 30 }
    (AmmOp.swap 1000 0 true) (by decide) (by decide)
    (fun amount maxX maxY hop hsup => AmmOp.noConfusion hop) (by decide)).1

end Amm
